import Mathlib

set_option maxHeartbeats 1000000
set_option linter.unusedVariables false

/-! Verification of the fuzzyurl URL-mask library.

The public module `src/src/fuzzyurl.js` is embedded directly; the modules it
loads (`./strings`, `./match`, `./constructor`) are not part of the sources,
so their operations are modelled from the specification.  JavaScript strings
are modelled as `List Char`; a JS `undefined` field is `Option.none`. -/

/-- The eight-field URL record (the `Fuzzyurl` constructor object).  Each field
is either a concrete character string or absent (`none`, modelling JS
`undefined`). -/
structure Fuzzyurl where
  protocol : Option (List Char)
  username : Option (List Char)
  password : Option (List Char)
  hostname : Option (List Char)
  port     : Option (List Char)
  path     : Option (List Char)
  query    : Option (List Char)
  fragment : Option (List Char)
deriving DecidableEq

/-- The single-character wildcard marker, the string `"*"`. -/
def starStr : List Char := ['*']

namespace Strings

/-- Splits `s` at the first occurrence of the delimiter sequence `pat`,
returning the parts strictly before and strictly after it. -/
def splitSeq (pat : List Char) : List Char → Option (List Char × List Char)
  | [] => if pat.isEmpty then some ([], []) else none
  | c :: rest =>
    if pat.isPrefixOf (c :: rest) then some ([], (c :: rest).drop pat.length)
    else (splitSeq pat rest).map (fun pr => (c :: pr.1, pr.2))

/-- Characters that terminate the host-and-port part of a URL. -/
def stopHost (c : Char) : Bool := c == '/' || c == '?' || c == '#'

/-- Characters that terminate the path part of a URL. -/
def stopPath (c : Char) : Bool := c == '?' || c == '#'

/-- Assembles the protocol stage result from the `"://"` split of `s`. -/
def protAssemble (s : List Char) : Option (List Char × List Char) → Option (List Char) × List Char
  | some (a, b) => (some a, b)
  | none => (none, s)

/-- Modelled from the spec: step 1 of `StringCodec.parse` (module
`src/strings.js` is absent from the sources).  If the string contains `"://"`,
the substring before it is the protocol, consumed with the delimiter. -/
def stageProtocol (s : List Char) : Option (List Char) × List Char :=
  protAssemble s (splitSeq [':', '/', '/'] s)

/-- Assembles username and password from the first-colon split of the
credential part. -/
def credColon (rest cred : List Char) :
    Option (List Char × List Char) → Option (List Char) × Option (List Char) × List Char
  | some (u, p) => (some u, some p, rest)
  | none => (some cred, none, rest)

/-- Assembles the credential stage result from the first-`@` split of `s`. -/
def credAssemble (s : List Char) :
    Option (List Char × List Char) → Option (List Char) × Option (List Char) × List Char
  | some (cred, rest) =>
    if cred.contains '/' then (none, none, s)
    else credColon rest cred (splitSeq [':'] cred)
  | none => (none, none, s)

/-- Modelled from the spec: step 2 of `StringCodec.parse`.  If an `@` exists
before any `/`, the part before it is the credential, split on the first `:`
into username and password. -/
def stageCred (s : List Char) : Option (List Char) × Option (List Char) × List Char :=
  credAssemble s (splitSeq ['@'] s)

/-- Assembles hostname and port from the last-colon split (expressed as the
first-colon split of the reversed host-and-port part `hp`). -/
def hostAssemble (hp rest : List Char) :
    Option (List Char × List Char) → Option (List Char) × Option (List Char) × List Char
  | some (rp, rh) => (some rh.reverse, some rp.reverse, rest)
  | none => (if hp.isEmpty then none else some hp, none, rest)

/-- Modelled from the spec: step 3 of `StringCodec.parse`.  The remainder up to
the first of `/`, `?`, `#` is the host-and-port part, split on its last colon
into hostname and port. -/
def stageHost (s : List Char) : Option (List Char) × Option (List Char) × List Char :=
  hostAssemble (s.takeWhile (fun c => !stopHost c)) (s.dropWhile (fun c => !stopHost c))
    (splitSeq [':'] (s.takeWhile (fun c => !stopHost c)).reverse)

/-- Modelled from the spec: step 4 of `StringCodec.parse`.  From the first `/`
(inclusive) up to the first `?` or `#`, capture the path. -/
def stagePath (s : List Char) : Option (List Char) × List Char :=
  if s.head? = some '/' then
    (some (s.takeWhile (fun c => !stopPath c)), s.dropWhile (fun c => !stopPath c))
  else (none, s)

/-- Modelled from the spec: step 5 of `StringCodec.parse`.  From `?`
(exclusive) up to `#`, capture the query. -/
def stageQuery (s : List Char) : Option (List Char) × List Char :=
  if s.head? = some '?' then
    (some ((s.drop 1).takeWhile (fun c => !(c == '#'))),
     (s.drop 1).dropWhile (fun c => !(c == '#')))
  else (none, s)

/-- Modelled from the spec: step 6 of `StringCodec.parse`.  From `#`
(exclusive) to the end, capture the fragment. -/
def stageFrag (s : List Char) : Option (List Char) × List Char :=
  if s.head? = some '#' then (some (s.drop 1), []) else (none, s)

/-- Modelled from the spec: the raw left-to-right decomposition performed by
`Strings.fromString` before any default value is applied. -/
def parseRaw (s : List Char) : Fuzzyurl :=
  let pr := stageProtocol s
  let cr := stageCred pr.2
  let hr := stageHost cr.2.2
  let pa := stagePath hr.2.2
  let qr := stageQuery pa.2
  let fr := stageFrag qr.2
  ⟨pr.1, cr.1, cr.2.1, hr.1, hr.2.1, pa.1, qr.1, fr.1⟩

/-- Fills an absent field with the configured default value. -/
def setD (d : Option (List Char)) : Option (List Char) → Option (List Char)
  | none => d
  | some v => some v

/-- Sets every absent field of `f` to the default `d`. -/
def withDefault (d : Option (List Char)) (f : Fuzzyurl) : Fuzzyurl :=
  ⟨setD d f.protocol, setD d f.username, setD d f.password, setD d f.hostname,
   setD d f.port, setD d f.path, setD d f.query, setD d f.fragment⟩

/-- Modelled from the spec: `Strings.fromString` (module `src/strings.js` is
absent from the sources).  Decomposes the string and, when a `default` option
is supplied, sets every absent field to that default. -/
def fromString (s : List Char) (dflt : Option (List Char)) : Fuzzyurl :=
  withDefault dflt (parseRaw s)

/-- Serialization of the protocol field with its delimiter. -/
def emitP : Option (List Char) → List Char
  | none => []
  | some p => p ++ [':', '/', '/']

/-- Serialization of the credential fields with their delimiters. -/
def emitU : Option (List Char) → Option (List Char) → List Char
  | none, _ => []
  | some u, none => u ++ ['@']
  | some u, some pw => u ++ ':' :: (pw ++ ['@'])

/-- Serialization of the hostname and port fields with their delimiter. -/
def emitH : Option (List Char) → Option (List Char) → List Char
  | none, none => []
  | none, some t => ':' :: t
  | some h, none => h
  | some h, some t => h ++ ':' :: t

/-- Serialization of a field introduced by a one-character delimiter. -/
def emitS (c : Char) : Option (List Char) → List Char
  | none => []
  | some v => c :: v

/-- Serialization of the path field (its leading slash is stored in it). -/
def emitPlain : Option (List Char) → List Char
  | none => []
  | some v => v

/-- Modelled from the spec: `Strings.toString` (serialize), re-assembling the
eight fields in order and re-inserting only the delimiters of present
fields. -/
def toString (f : Fuzzyurl) : List Char :=
  emitP f.protocol ++ emitU f.username f.password ++ emitH f.hostname f.port
    ++ emitPlain f.path ++ emitS '?' f.query ++ emitS '#' f.fragment

end Strings

example :
    Strings.fromString "https://api.example.com/users/123?full=true".toList none =
      ⟨some "https".toList, none, none, some "api.example.com".toList, none,
       some "/users/123".toList, some "full=true".toList, none⟩ := by decide

example :
    Strings.fromString "http://u:p@h:80/a?q#f".toList none =
      ⟨some "http".toList, some "u".toList, some "p".toList, some "h".toList,
       some "80".toList, some "/a".toList, some "q".toList, some "f".toList⟩ := by decide

example : Strings.fromString "".toList none = ⟨none, none, none, none, none, none, none, none⟩ := by
  decide

example :
    Strings.toString (Strings.fromString "http://u:p@h:80/a?q#f".toList none) =
      "http://u:p@h:80/a?q#f".toList := by decide

/-- The three per-field match outcomes of the FieldMatcher. -/
inductive Outcome where
  | perfect
  | wildcard
  | noMatch
deriving DecidableEq

/-- The numeric score attached to an outcome: 1, 0, or null. -/
def score : Outcome → Option Nat
  | .perfect => some 1
  | .wildcard => some 0
  | .noMatch => none

/-- The integer value contributed by a non-vetoing outcome. -/
def scoreN : Outcome → Nat
  | .perfect => 1
  | _ => 0

namespace Match

/-- Modelled from the spec: the FieldMatcher for the general fields (protocol,
username, password, port, query, fragment) of `Match.fuzzyMatch` (module
`src/match.js` is absent from the sources).  The mask is a simple glob with at
most a leading or trailing `*`. -/
def fuzzyMatchGeneral (m v : Option (List Char)) : Outcome :=
  match m, v with
  | none, none => .perfect
  | none, some _ => .noMatch
  | some mk, none => if mk = starStr then .wildcard else .noMatch
  | some mk, some vk =>
    if mk = starStr then .wildcard
    else if mk = vk then .perfect
    else if mk.head? = some '*' then
      (if (mk.drop 1).isSuffixOf vk then .wildcard else .noMatch)
    else if mk.getLast? = some '*' then
      (if mk.dropLast.isPrefixOf vk then .wildcard else .noMatch)
    else .noMatch

/-- The dot-separated labels of a hostname (an empty hostname has one empty
label). -/
def labels : List Char → List (List Char)
  | [] => [[]]
  | c :: rest =>
    if c = '.' then [] :: labels rest
    else
      match labels rest with
      | [] => [[c]]
      | l :: ls => (c :: l) :: ls

/-- Modelled from the spec: the FieldMatcher for the hostname field of
`Match.fuzzyMatch` (module `src/match.js` is absent from the sources).  A
leading `*` label requires at least one extra preceding label; a leading `**`
label matches zero or more preceding labels. -/
def fuzzyMatchHostname (m v : Option (List Char)) : Outcome :=
  match m, v with
  | none, none => .perfect
  | none, some _ => .noMatch
  | some mk, none => if mk = starStr then .wildcard else .noMatch
  | some mk, some vk =>
    if mk = starStr then .wildcard
    else if mk = vk then .perfect
    else
      match labels mk with
      | [] => .noMatch
      | l :: ls =>
        if l = ['*'] then
          (if ls.isSuffixOf (labels vk) && decide (ls.length < (labels vk).length)
           then .wildcard else .noMatch)
        else if l = ['*', '*'] then
          (if ls.isSuffixOf (labels vk) then .wildcard else .noMatch)
        else .noMatch

/-- Modelled from the spec: the FieldMatcher for the path field of
`Match.fuzzyMatch` (module `src/match.js` is absent from the sources).  A mask
`p/*` matches values starting with `p/`; a mask `p/**` additionally matches the
bare `p`; otherwise exact equality is required. -/
def fuzzyMatchPath (m v : Option (List Char)) : Outcome :=
  match m, v with
  | none, none => .perfect
  | none, some _ => .noMatch
  | some mk, none => if mk = starStr then .wildcard else .noMatch
  | some mk, some vk =>
    if mk = starStr then .wildcard
    else if mk = vk then .perfect
    else if ['/', '*', '*'].isSuffixOf mk then
      (if (mk.take (mk.length - 3) ++ ['/']).isPrefixOf vk || vk = mk.take (mk.length - 3)
       then .wildcard else .noMatch)
    else if ['/', '*'].isSuffixOf mk then
      (if (mk.take (mk.length - 2) ++ ['/']).isPrefixOf vk then .wildcard else .noMatch)
    else .noMatch

/-- The eight per-field outcomes of matching mask `m` against url `u`, in field
order. -/
def outcomes (m u : Fuzzyurl) : List Outcome :=
  [fuzzyMatchGeneral m.protocol u.protocol,
   fuzzyMatchGeneral m.username u.username,
   fuzzyMatchGeneral m.password u.password,
   fuzzyMatchHostname m.hostname u.hostname,
   fuzzyMatchGeneral m.port u.port,
   fuzzyMatchPath m.path u.path,
   fuzzyMatchGeneral m.query u.query,
   fuzzyMatchGeneral m.fragment u.fragment]

/-- Null-propagating addition of per-field scores. -/
def addScore : Option Nat → Option Nat → Option Nat
  | some a, some b => some (a + b)
  | _, _ => none

/-- Modelled from the spec: `Match.match` (module `src/match.js` is absent from
the sources).  Null if any field outcome vetoes, otherwise the total score. -/
def matchUrl (m u : Fuzzyurl) : Option Nat :=
  ((outcomes m u).map score).foldl addScore (some 0)

/-- Modelled from the spec: one iteration of the scanning loop of
`Match.bestMatchIndex` (module `src/match.js` is absent from the sources).
`i` is the index of the candidate, `r` its match result, `best` the running
best (index, score) pair; a candidate replaces the running best only when
strictly greater. -/
def stepBest (i : Nat) (r : Option Nat) (best : Option (Nat × Nat)) : Option (Nat × Nat) :=
  match r, best with
  | none, b => b
  | some s, none => some (i, s)
  | some s, some (bi, bs) => if bs < s then some (i, s) else some (bi, bs)

/-- Modelled from the spec: the scanning loop of `Match.bestMatchIndex`. -/
def bmiGo (u : Fuzzyurl) : List Fuzzyurl → Nat → Option (Nat × Nat) → Option (Nat × Nat)
  | [], _, best => best
  | m :: rest, i, best => bmiGo u rest (i + 1) (stepBest i (matchUrl m u) best)

/-- Modelled from the spec: `Match.bestMatchIndex` (module `src/match.js` is
absent from the sources). -/
def bestMatchIndex (masks : List Fuzzyurl) (u : Fuzzyurl) : Option Nat :=
  (bmiGo u masks 0 none).map Prod.fst

/-- Head-first combination step of the reference best-index recursion. -/
def refStep (r : Option Nat) (rec : Option (Nat × Nat)) : Option (Nat × Nat) :=
  match r, rec with
  | none, rr => rr.map (fun p => (p.1 + 1, p.2))
  | some s, none => some (0, s)
  | some s, some (j, t) => if t ≤ s then some (0, s) else some (j + 1, t)

/-- Reference head-first recursion computing the first index of the maximal
non-null score, used to reason about `bmiGo`. -/
def bmiRef (u : Fuzzyurl) : List Fuzzyurl → Option (Nat × Nat)
  | [] => none
  | m :: rest => refStep (matchUrl m u) (bmiRef u rest)

/-- Combination of an accumulator with the reference result of the remaining
list, offsetting its indices by `i0`. -/
def combine (i0 : Nat) : Option (Nat × Nat) → Option (Nat × Nat) → Option (Nat × Nat)
  | none, none => none
  | some b, none => some b
  | none, some (j, t) => some (i0 + j, t)
  | some (bi, bs), some (j, t) => if bs < t then some (i0 + j, t) else some (bi, bs)

end Match

/-- Embeds `maskDefaults` (src/src/fuzzyurl.js lines 36-39): the all-wildcard
template every built mask starts from. -/
def maskDefaults : Fuzzyurl :=
  ⟨some starStr, some starStr, some starStr, some starStr, some starStr, some starStr, some starStr, some starStr⟩

/-- Embeds `Fuzzyurl.fromString` (src/src/fuzzyurl.js lines 67-69).  The JS
wrapper is declared with a single `string` parameter and calls
`Strings.fromString(string)`, so any options argument a caller passes — in
particular a `default` value — is dropped and never reaches the codec. -/
def Fuzzyurl.fromString (s : List Char) (options : Option (List Char)) : Fuzzyurl :=
  Strings.fromString s none

/-- Embeds `Fuzzyurl.match` (src/src/fuzzyurl.js lines 83-87) on
already-constructed records (the wrapper's string arguments are first parsed,
masks with default `"*"`). -/
def Fuzzyurl.matchMask (m u : Fuzzyurl) : Option Nat :=
  Match.matchUrl m u

/-- Embeds `Fuzzyurl.bestMatchIndex` (src/src/fuzzyurl.js lines 156-160) on
already-constructed mask records. -/
def Fuzzyurl.bestMatchIndex (masks : List Fuzzyurl) (u : Fuzzyurl) : Option Nat :=
  Match.bestMatchIndex masks u

/-- The JavaScript value returned by `Fuzzyurl.bestMatch`: `null`, the number
`0` (a falsy non-mask value), or a mask from the list. -/
inductive MatchResult where
  | null
  | zero
  | found (m : Fuzzyurl)
deriving DecidableEq

/-- Embeds `Fuzzyurl.bestMatch` (src/src/fuzzyurl.js lines 173-176): the JS
body is `return index && masks[index]`, so a null index yields `null`, the
index `0` yields the number `0` itself, and only a positive index yields the
mask at that index. -/
def Fuzzyurl.bestMatch (masks : List Fuzzyurl) (u : Fuzzyurl) : MatchResult :=
  match Fuzzyurl.bestMatchIndex masks u with
  | none => .null
  | some 0 => .zero
  | some (Nat.succ i) =>
    match masks.get? (i + 1) with
    | some m => .found m
    | none => .null

/-- A JavaScript property value as stored on a mask-source object. -/
inductive JSProp where
  | undef
  | jnull
  | jnum (n : Int)
  | jstr (s : List Char)
deriving DecidableEq

/-- JavaScript truthiness of a property value. -/
def JSProp.truthy : JSProp → Bool
  | .undef => false
  | .jnull => false
  | .jnum n => n != 0
  | .jstr s => !s.isEmpty

/-- A plain JavaScript object with the eight URL fields (an absent key is
`undef`). -/
structure JSObj where
  protocol : JSProp
  username : JSProp
  password : JSProp
  hostname : JSProp
  port     : JSProp
  path     : JSProp
  query    : JSProp
  fragment : JSProp
deriving DecidableEq

/-- The empty JavaScript object `{}`. -/
def emptyObj : JSObj :=
  ⟨.undef, .undef, .undef, .undef, .undef, .undef, .undef, .undef⟩

/-- A JavaScript value passed as the `params` argument of `Fuzzyurl.mask`. -/
inductive JSValue where
  | vString (s : List Char)
  | vNumber (n : Int)
  | vBool (b : Bool)
  | vNull
  | vUndefined
  | vObject (o : JSObj)
deriving DecidableEq

/-- JavaScript truthiness of a `params` value. -/
def JSValue.truthy : JSValue → Bool
  | .vString s => !s.isEmpty
  | .vNumber n => n != 0
  | .vBool b => b
  | .vNull => false
  | .vUndefined => false
  | .vObject _ => true

/-- The mask object built by `Fuzzyurl.mask` (its fields keep the JS values the
overlay wrote into them). -/
structure MaskObj where
  protocol : JSProp
  username : JSProp
  password : JSProp
  hostname : JSProp
  port     : JSProp
  path     : JSProp
  query    : JSProp
  fragment : JSProp
deriving DecidableEq

/-- One overlay step of `Fuzzyurl.mask` (src/src/fuzzyurl.js lines 31-33): a
truthy source value overwrites the `"*"` default, a falsy one is skipped. -/
def pick (p : JSProp) : JSProp :=
  if p.truthy then p else .jstr starStr

/-- Overlays the truthy fields of `o` onto the all-`"*"` template. -/
def maskFromObj (o : JSObj) : MaskObj :=
  ⟨pick o.protocol, pick o.username, pick o.password, pick o.hostname,
   pick o.port, pick o.path, pick o.query, pick o.fragment⟩

/-- The all-wildcard mask object `Fuzzyurl.mask()` returns. -/
def maskDefaultsObj : MaskObj :=
  ⟨.jstr starStr, .jstr starStr, .jstr starStr, .jstr starStr,
   .jstr starStr, .jstr starStr, .jstr starStr, .jstr starStr⟩

/-- View of a parsed record as a JavaScript object (absent fields are
`undef`). -/
def fuzzyurlToObj (f : Fuzzyurl) : JSObj :=
  ⟨(f.protocol.map .jstr).getD .undef, (f.username.map .jstr).getD .undef,
   (f.password.map .jstr).getD .undef, (f.hostname.map .jstr).getD .undef,
   (f.port.map .jstr).getD .undef, (f.path.map .jstr).getD .undef,
   (f.query.map .jstr).getD .undef, (f.fragment.map .jstr).getD .undef⟩

/-- Embeds `Fuzzyurl.mask` (src/src/fuzzyurl.js lines 15-35).  A string is
parsed through `Fuzzyurl.fromString(params, {default: "*"})`; a falsy value is
replaced by `{}`; any other object is used as the overlay source; anything
else throws. -/
def Fuzzyurl.mask (params : JSValue) : Except String MaskObj :=
  match params with
  | .vString s => .ok (maskFromObj (fuzzyurlToObj (Fuzzyurl.fromString s (some starStr))))
  | p =>
    if p.truthy = false then .ok (maskFromObj emptyObj)
    else
      match p with
      | .vObject o => .ok (maskFromObj o)
      | _ => .error "params must be string, object, or null"

/-- C1 failing input helper: the all-absent URL record. -/
def urlAbsent : Fuzzyurl := ⟨none, none, none, none, none, none, none, none⟩

/-- C5 witness mask: a literal hostname that disagrees with the witness URL. -/
def c5Mask : Fuzzyurl := { maskDefaults with hostname := some "nope.com".toList }

/-- C5 witness URL. -/
def c5Url : Fuzzyurl := ⟨none, none, none, some "example.com".toList, none, none, none, none⟩

/-- C10 witness object: empty string, null, and 0 field values, plus one
truthy hostname. -/
def c10Obj : JSObj :=
  ⟨.jstr [], .jnull, .jnum 0, .jstr "x".toList, .undef, .undef, .undef, .undef⟩

/-- C7 witness masks: a wildcarded path mask, a literal path mask, and the
all-wildcard mask. -/
def c7Masks : List Fuzzyurl :=
  [{ maskDefaults with path := some "/foo/*".toList },
   { maskDefaults with path := some "/foo/bar".toList },
   maskDefaults]

/-- C7 witness URL. -/
def c7Url : Fuzzyurl := ⟨none, none, none, none, none, some "/foo/bar".toList, none, none⟩

/-- A string free of every character in `bad`. -/
def freeOf (bad l : List Char) : Bool := l.all (fun c => !bad.contains c)

/-- A string of the supported grammar with all eight delimiters present:
protocol `://` username `:` password `@` hostname `:` port `/` path-remainder
`?` query `#` fragment, each component free of the delimiter characters that
could cut it short. -/
def allEightForm (s : List Char) : Prop :=
  ∃ p u pw h t pa q f : List Char,
    freeOf [':', '/', '?', '#', '@'] p = true ∧
    freeOf [':', '/', '?', '#', '@'] u = true ∧
    freeOf [':', '/', '?', '#', '@'] pw = true ∧
    freeOf [':', '/', '?', '#', '@'] h = true ∧
    freeOf [':', '/', '?', '#', '@'] t = true ∧
    freeOf ['?', '#'] pa = true ∧
    freeOf ['#'] q = true ∧
    s = p ++ [':', '/', '/'] ++ u ++ [':'] ++ pw ++ ['@'] ++ h ++ [':'] ++ t ++
      ['/'] ++ pa ++ ['?'] ++ q ++ ['#'] ++ f

example : Match.matchUrl maskDefaults ⟨none, none, none, none, none, none, none, none⟩ = some 0 := by
  decide

example :
    Match.matchUrl maskDefaults (Strings.fromString "http://u:p@h:80/a?q#f".toList none) =
      some 0 := by decide

example :
    Match.fuzzyMatchHostname (some "*.example.com".toList) (some "example.com".toList) =
      .noMatch := by decide

example :
    Match.fuzzyMatchHostname (some "**.example.com".toList) (some "example.com".toList) =
      .wildcard := by decide

example :
    Match.fuzzyMatchPath (some "/a/b/*".toList) (some "/a/b".toList) = .noMatch := by decide

example :
    Match.fuzzyMatchPath (some "/a/b/**".toList) (some "/a/b".toList) = .wildcard := by decide

example :
    Match.bestMatchIndex
      [{ maskDefaults with path := some "/foo/*".toList },
       { maskDefaults with path := some "/foo/bar".toList },
       maskDefaults]
      ⟨none, none, none, none, none, some "/foo/bar".toList, none, none⟩ = some 1 := by decide

example : Fuzzyurl.bestMatch [maskDefaults] ⟨none, none, none, none, none, none, none, none⟩ =
    .zero := by decide

example : Fuzzyurl.mask (.vNumber 0) = .ok maskDefaultsObj := rfl

example : Fuzzyurl.mask (.vNumber 5) = .error "params must be string, object, or null" := rfl

/-! Generic helper lemmas about boolean prefix and suffix tests. -/

lemma isPrefixOf_ex {α : Type} [BEq α] [LawfulBEq α] :
    ∀ l s : List α, l.isPrefixOf s = true → ∃ t, s = l ++ t := by
  intro l
  induction l with
  | nil => exact fun s _ => ⟨s, rfl⟩
  | cons c cs ih =>
    intro s h
    cases s with
    | nil => simp at h
    | cons b bs =>
      rw [List.isPrefixOf_cons₂, Bool.and_eq_true] at h
      obtain ⟨hcb, hrest⟩ := h
      obtain ⟨t, ht⟩ := ih bs hrest
      exact ⟨t, by rw [ht, eq_of_beq hcb]; rfl⟩

lemma isPrefixOf_self_append {α : Type} [BEq α] [LawfulBEq α] (l t : List α) :
    l.isPrefixOf (l ++ t) = true := by
  induction l with
  | nil => simp
  | cons c cs ih => simpa [List.isPrefixOf_cons₂] using ih

lemma isSuffixOf_ex {α : Type} [BEq α] [LawfulBEq α] (l s : List α)
    (h : l.isSuffixOf s = true) : ∃ t, s = t ++ l := by
  obtain ⟨t, ht⟩ := isPrefixOf_ex l.reverse s.reverse h
  refine ⟨t.reverse, ?_⟩
  have h2 := congrArg List.reverse ht
  simpa [List.reverse_append] using h2

lemma isSuffixOf_append_self {α : Type} [BEq α] [LawfulBEq α] (l t : List α) :
    l.isSuffixOf (t ++ l) = true := by
  simp [List.isSuffixOf, List.reverse_append, isPrefixOf_self_append]


/-- C1: with a single all-wildcard mask the winning index is 0, yet
`Fuzzyurl.bestMatch` (whose JS body is `return index && masks[index]`) yields
the falsy number `0` instead of the mask at index 0 — and not `null` either —
contradicting its own documentation ("returns the one which best matches
`url`.  Returns null if none of `masks` match"). -/
theorem c1_bestMatch_zero_bug :
    Fuzzyurl.bestMatchIndex [maskDefaults] urlAbsent = some 0 ∧
      Fuzzyurl.bestMatch [maskDefaults] urlAbsent = MatchResult.zero ∧
      ∀ m : Fuzzyurl, MatchResult.zero ≠ MatchResult.found m := by
  refine ⟨by decide, by decide, fun m h => MatchResult.noConfusion h⟩

/-- C2: the public wrapper `Fuzzyurl.fromString` drops the options argument,
so a supplied default `"*"` never reaches the codec and every undelimited
field stays absent; the modelled codec `Strings.fromString` itself does set
every absent field to the supplied default, as the wrapper's own documentation
promises. -/
theorem c2_fromString_default_dropped :
    Fuzzyurl.fromString "example.com".toList (some starStr) =
      ⟨none, none, none, some "example.com".toList, none, none, none, none⟩ ∧
      Strings.fromString "example.com".toList (some starStr) =
        ⟨some starStr, some starStr, some starStr, some "example.com".toList,
         some starStr, some starStr, some starStr, some starStr⟩ := by
  exact ⟨by decide, by decide⟩

/-- C9 counterexample: the number `0` is neither a string, nor a
UrlRecord-shaped object, nor absent/null, yet `Fuzzyurl.mask` does not raise:
it silently returns the all-wildcard mask, because the JS guard `!params`
swallows every falsy value. -/
theorem c9_counterexample : Fuzzyurl.mask (JSValue.vNumber 0) = Except.ok maskDefaultsObj := rfl

/-- C9 (amended): a mask argument that is neither a string, nor an object, nor
falsy raises the explicit error; falsy non-null values such as `0` and `false`
are instead silently treated like null. -/
theorem c9_mask_error_on_truthy_nonobject (v : JSValue)
    (hs : ∀ s, v ≠ JSValue.vString s) (ho : ∀ o, v ≠ JSValue.vObject o)
    (ht : v.truthy = true) :
    Fuzzyurl.mask v = Except.error "params must be string, object, or null" := by
  cases v with
  | vString s => exact absurd rfl (hs s)
  | vObject o => exact absurd rfl (ho o)
  | vNull => exact absurd ht (by decide)
  | vUndefined => exact absurd ht (by decide)
  | vNumber n =>
    have e : Fuzzyurl.mask (JSValue.vNumber n) =
        if (JSValue.vNumber n).truthy = false then Except.ok (maskFromObj emptyObj)
        else Except.error "params must be string, object, or null" := rfl
    rw [e, if_neg (by rw [ht]; exact fun hc => Bool.noConfusion hc)]
  | vBool b =>
    have e : Fuzzyurl.mask (JSValue.vBool b) =
        if (JSValue.vBool b).truthy = false then Except.ok (maskFromObj emptyObj)
        else Except.error "params must be string, object, or null" := rfl
    rw [e, if_neg (by rw [ht]; exact fun hc => Bool.noConfusion hc)]

/-- C9 witness: the error is raised at the concrete non-zero number `5`. -/
theorem c9_mask_error_witness :
    Fuzzyurl.mask (JSValue.vNumber 5) = Except.error "params must be string, object, or null" :=
  c9_mask_error_on_truthy_nonobject (JSValue.vNumber 5)
    (fun s h => JSValue.noConfusion h) (fun o h => JSValue.noConfusion h) (by decide)

lemma pick_truthy (p : JSProp) : (pick p).truthy = true := by
  rw [pick]
  by_cases h : p.truthy = true
  · rw [if_pos h]; exact h
  · rw [if_neg h]; rfl

lemma pick_falsy (p : JSProp) (h : p.truthy = false) : pick p = .jstr starStr := by
  simp [pick, h]

lemma mask_ok_shape (v : JSValue) (m : MaskObj) (h : Fuzzyurl.mask v = .ok m) :
    ∃ o, m = maskFromObj o := by
  cases v with
  | vString s =>
    have e : Fuzzyurl.mask (JSValue.vString s) =
        Except.ok (maskFromObj (fuzzyurlToObj (Fuzzyurl.fromString s (some starStr)))) := rfl
    rw [e] at h
    injection h with h'
    exact ⟨_, h'.symm⟩
  | vObject o =>
    have e : Fuzzyurl.mask (JSValue.vObject o) = Except.ok (maskFromObj o) := rfl
    rw [e] at h
    injection h with h'
    exact ⟨o, h'.symm⟩
  | vNull =>
    have e : Fuzzyurl.mask JSValue.vNull = Except.ok (maskFromObj emptyObj) := rfl
    rw [e] at h
    injection h with h'
    exact ⟨emptyObj, h'.symm⟩
  | vUndefined =>
    have e : Fuzzyurl.mask JSValue.vUndefined = Except.ok (maskFromObj emptyObj) := rfl
    rw [e] at h
    injection h with h'
    exact ⟨emptyObj, h'.symm⟩
  | vNumber n =>
    have e : Fuzzyurl.mask (JSValue.vNumber n) =
        if (JSValue.vNumber n).truthy = false then Except.ok (maskFromObj emptyObj)
        else Except.error "params must be string, object, or null" := rfl
    rw [e] at h
    by_cases hz : (JSValue.vNumber n).truthy = false
    · rw [if_pos hz] at h
      injection h with h'
      exact ⟨emptyObj, h'.symm⟩
    · rw [if_neg hz] at h
      exact Except.noConfusion h
  | vBool b =>
    have e : Fuzzyurl.mask (JSValue.vBool b) =
        if (JSValue.vBool b).truthy = false then Except.ok (maskFromObj emptyObj)
        else Except.error "params must be string, object, or null" := rfl
    rw [e] at h
    by_cases hz : (JSValue.vBool b).truthy = false
    · rw [if_pos hz] at h
      injection h with h'
      exact ⟨emptyObj, h'.symm⟩
    · rw [if_neg hz] at h
      exact Except.noConfusion h

/-- C10: the overlay of `Fuzzyurl.mask` skips every falsy field value, so a
falsy value (empty string, null, undefined, 0) leaves the `"*"` default in
place, and every field of every successfully built mask is truthy — in
particular populated and never the empty string. -/
theorem c10_mask_falsy_fields :
    (∀ o : JSObj,
      (o.protocol.truthy = false → (maskFromObj o).protocol = .jstr starStr) ∧
      (o.username.truthy = false → (maskFromObj o).username = .jstr starStr) ∧
      (o.password.truthy = false → (maskFromObj o).password = .jstr starStr) ∧
      (o.hostname.truthy = false → (maskFromObj o).hostname = .jstr starStr) ∧
      (o.port.truthy = false → (maskFromObj o).port = .jstr starStr) ∧
      (o.path.truthy = false → (maskFromObj o).path = .jstr starStr) ∧
      (o.query.truthy = false → (maskFromObj o).query = .jstr starStr) ∧
      (o.fragment.truthy = false → (maskFromObj o).fragment = .jstr starStr)) ∧
    (∀ (v : JSValue) (m : MaskObj), Fuzzyurl.mask v = .ok m →
      m.protocol.truthy = true ∧ m.username.truthy = true ∧ m.password.truthy = true ∧
      m.hostname.truthy = true ∧ m.port.truthy = true ∧ m.path.truthy = true ∧
      m.query.truthy = true ∧ m.fragment.truthy = true) := by
  constructor
  · intro o
    exact ⟨fun h => pick_falsy _ h, fun h => pick_falsy _ h, fun h => pick_falsy _ h,
      fun h => pick_falsy _ h, fun h => pick_falsy _ h, fun h => pick_falsy _ h,
      fun h => pick_falsy _ h, fun h => pick_falsy _ h⟩
  · intro v m h
    obtain ⟨o, rfl⟩ := mask_ok_shape v m h
    exact ⟨pick_truthy _, pick_truthy _, pick_truthy _, pick_truthy _,
      pick_truthy _, pick_truthy _, pick_truthy _, pick_truthy _⟩


/-- C10 witness: on a concrete object the falsy protocol stays `"*"` and the
mask built from it is fully truthy. -/
theorem c10_mask_falsy_fields_witness :
    (maskFromObj c10Obj).protocol = .jstr starStr ∧
      (maskFromObj c10Obj).hostname.truthy = true :=
  ⟨(c10_mask_falsy_fields.1 c10Obj).1 (by decide),
   ((c10_mask_falsy_fields.2 (JSValue.vObject c10Obj) (maskFromObj c10Obj)) rfl).2.2.2.1⟩

/-! Lemmas about the all-wildcard mask and score aggregation. -/

lemma fuzzyMatchGeneral_star (v : Option (List Char)) :
    Match.fuzzyMatchGeneral (some starStr) v = Outcome.wildcard := by
  cases v with
  | none => simp [Match.fuzzyMatchGeneral]
  | some vk => simp [Match.fuzzyMatchGeneral]

lemma fuzzyMatchHostname_star (v : Option (List Char)) :
    Match.fuzzyMatchHostname (some starStr) v = Outcome.wildcard := by
  cases v with
  | none => simp [Match.fuzzyMatchHostname]
  | some vk => simp [Match.fuzzyMatchHostname]

lemma fuzzyMatchPath_star (v : Option (List Char)) :
    Match.fuzzyMatchPath (some starStr) v = Outcome.wildcard := by
  cases v with
  | none => simp [Match.fuzzyMatchPath]
  | some vk => simp [Match.fuzzyMatchPath]

/-- C6: the all-wildcard mask `maskDefaults` matches every URL record with
score exactly 0 (never null), and parsing the empty string yields the record
with all eight fields absent. -/
theorem c6_wildcard_identity :
    (∀ u : Fuzzyurl, Match.matchUrl maskDefaults u = some 0) ∧
      Strings.fromString [] none = ⟨none, none, none, none, none, none, none, none⟩ := by
  constructor
  · intro u
    show ((Match.outcomes maskDefaults u).map score).foldl Match.addScore (some 0) = some 0
    rw [show Match.outcomes maskDefaults u =
        [Match.fuzzyMatchGeneral (some starStr) u.protocol,
         Match.fuzzyMatchGeneral (some starStr) u.username,
         Match.fuzzyMatchGeneral (some starStr) u.password,
         Match.fuzzyMatchHostname (some starStr) u.hostname,
         Match.fuzzyMatchGeneral (some starStr) u.port,
         Match.fuzzyMatchPath (some starStr) u.path,
         Match.fuzzyMatchGeneral (some starStr) u.query,
         Match.fuzzyMatchGeneral (some starStr) u.fragment] from rfl]
    rw [fuzzyMatchGeneral_star, fuzzyMatchGeneral_star, fuzzyMatchGeneral_star,
      fuzzyMatchGeneral_star, fuzzyMatchGeneral_star, fuzzyMatchGeneral_star,
      fuzzyMatchHostname_star, fuzzyMatchPath_star]
    rfl
  · rfl

lemma addScore_none_right (a : Option Nat) : Match.addScore a none = none := by
  cases a <;> rfl

lemma foldl_addScore_none (l : List (Option Nat)) : l.foldl Match.addScore none = none := by
  induction l with
  | nil => rfl
  | cons x t ih =>
    show t.foldl Match.addScore (Match.addScore none x) = none
    rw [show Match.addScore none x = none from by cases x <;> rfl]
    exact ih

lemma score_eq_some (o : Outcome) (h : o ≠ Outcome.noMatch) : score o = some (scoreN o) := by
  cases o with
  | perfect => rfl
  | wildcard => rfl
  | noMatch => exact absurd rfl h

lemma foldl_score_nomatch_mem :
    ∀ (l : List Outcome) (a : Option Nat), Outcome.noMatch ∈ l →
      (l.map score).foldl Match.addScore a = none := by
  intro l
  induction l with
  | nil => intro a h; exact absurd h (List.not_mem_nil _)
  | cons o t ih =>
    intro a h
    rcases List.mem_cons.mp h with h1 | h1
    · subst h1
      show (t.map score).foldl Match.addScore (Match.addScore a none) = none
      rw [addScore_none_right]
      exact foldl_addScore_none _
    · exact ih _ h1

lemma foldl_score_no_nomatch :
    ∀ (l : List Outcome) (k : Nat), Outcome.noMatch ∉ l →
      (l.map score).foldl Match.addScore (some k) = some (k + (l.map scoreN).sum) := by
  intro l
  induction l with
  | nil => intro k _; simp
  | cons o t ih =>
    intro k h
    have ho : o ≠ Outcome.noMatch := fun e => h (e ▸ List.mem_cons_self o t)
    have ht : Outcome.noMatch ∉ t := fun e => h (List.mem_cons_of_mem o e)
    show (t.map score).foldl Match.addScore (Match.addScore (some k) (score o)) =
      some (k + ((o :: t).map scoreN).sum)
    rw [score_eq_some o ho]
    show (t.map score).foldl Match.addScore (some (k + scoreN o)) =
      some (k + ((o :: t).map scoreN).sum)
    rw [ih (k + scoreN o) ht]
    simp [Nat.add_assoc]

lemma sum_scoreN_le_length (l : List Outcome) : (l.map scoreN).sum ≤ l.length := by
  induction l with
  | nil => simp
  | cons o t ih =>
    have : scoreN o ≤ 1 := by cases o <;> simp [scoreN]
    simp only [List.map_cons, List.sum_cons, List.length_cons]
    omega

/-- C5: if any of the eight per-field outcomes is a veto (`noMatch`), the
whole match is null regardless of the other fields; otherwise the match is the
sum of the eight per-field scores, a value between 0 and 8. -/
theorem c5_veto_and_sum (m u : Fuzzyurl) :
    (Outcome.noMatch ∈ Match.outcomes m u → Match.matchUrl m u = none) ∧
      (Outcome.noMatch ∉ Match.outcomes m u →
        Match.matchUrl m u = some (((Match.outcomes m u).map scoreN).sum) ∧
          ((Match.outcomes m u).map scoreN).sum ≤ 8) := by
  constructor
  · intro h
    exact foldl_score_nomatch_mem (Match.outcomes m u) (some 0) h
  · intro h
    constructor
    · have := foldl_score_no_nomatch (Match.outcomes m u) 0 h
      simpa [Match.matchUrl] using this
    · have hlen : (Match.outcomes m u).length = 8 := rfl
      have := sum_scoreN_le_length (Match.outcomes m u)
      omega


/-- C5 witness: a single vetoing hostname nullifies the match, and without a
veto the all-wildcard mask scores the sum of its field scores, at most 8. -/
theorem c5_veto_and_sum_witness :
    Match.matchUrl c5Mask c5Url = none ∧
      (Match.matchUrl maskDefaults c5Url =
          some (((Match.outcomes maskDefaults c5Url).map scoreN).sum) ∧
        ((Match.outcomes maskDefaults c5Url).map scoreN).sum ≤ 8) :=
  ⟨(c5_veto_and_sum c5Mask c5Url).1 (by decide),
   (c5_veto_and_sum maskDefaults c5Url).2 (by decide)⟩

/-! Lemmas for the hostname and path boundary claims. -/

lemma labels_star_dot (S : List Char) :
    Match.labels ('*' :: '.' :: S) = ['*'] :: Match.labels S := by
  have h1 : Match.labels ('.' :: S) = [] :: Match.labels S := by
    rw [Match.labels]
    simp
  rw [Match.labels, if_neg (by decide), h1]

/-- C3: a hostname mask `*.S` (leading single-star label) matches a hostname
only if its labels are the labels of `S` preceded by at least one extra label;
in particular `*.example.com` rejects `example.com` while `**.example.com`
accepts it, and both accept `a.example.com`. -/
theorem c3_hostname_boundary :
    (∀ S h : List Char,
      score (Match.fuzzyMatchHostname (some ('*' :: '.' :: S)) (some h)) ≠ none →
        ∃ e, e ≠ [] ∧ Match.labels h = e ++ Match.labels S) ∧
    score (Match.fuzzyMatchHostname (some "*.example.com".toList)
      (some "example.com".toList)) = none ∧
    score (Match.fuzzyMatchHostname (some "**.example.com".toList)
      (some "example.com".toList)) ≠ none ∧
    score (Match.fuzzyMatchHostname (some "*.example.com".toList)
      (some "a.example.com".toList)) ≠ none ∧
    score (Match.fuzzyMatchHostname (some "**.example.com".toList)
      (some "a.example.com".toList)) ≠ none := by
  refine ⟨?_, by decide, by decide, by decide, by decide⟩
  intro S h hscore
  have hne : ('*' :: '.' :: S) ≠ starStr := by
    intro e
    have := congrArg List.length e
    simp [starStr] at this
  by_cases heq : ('*' :: '.' :: S) = h
  · exact ⟨[['*']], by simp, by rw [← heq, labels_star_dot]; rfl⟩
  · have e1 : Match.fuzzyMatchHostname (some ('*' :: '.' :: S)) (some h) =
        if (Match.labels S).isSuffixOf (Match.labels h) &&
            decide ((Match.labels S).length < (Match.labels h).length)
        then Outcome.wildcard else Outcome.noMatch := by
      show (if ('*' :: '.' :: S) = starStr then Outcome.wildcard
        else if ('*' :: '.' :: S) = h then Outcome.perfect
        else match Match.labels ('*' :: '.' :: S) with
          | [] => Outcome.noMatch
          | l :: ls =>
            if l = ['*'] then
              (if ls.isSuffixOf (Match.labels h) && decide (ls.length < (Match.labels h).length)
               then Outcome.wildcard else Outcome.noMatch)
            else if l = ['*', '*'] then
              (if ls.isSuffixOf (Match.labels h) then Outcome.wildcard else Outcome.noMatch)
            else Outcome.noMatch) = _
      rw [if_neg hne, if_neg heq, labels_star_dot]
      exact if_pos rfl
    rw [e1] at hscore
    by_cases hc : ((Match.labels S).isSuffixOf (Match.labels h) &&
        decide ((Match.labels S).length < (Match.labels h).length)) = true
    · rw [Bool.and_eq_true] at hc
      obtain ⟨hsuf, hlt⟩ := hc
      have hlt' : (Match.labels S).length < (Match.labels h).length := of_decide_eq_true hlt
      obtain ⟨e, he⟩ := isSuffixOf_ex (Match.labels S) (Match.labels h) hsuf
      refine ⟨e, ?_, he⟩
      intro hnil
      rw [hnil, List.nil_append] at he
      rw [he] at hlt'
      exact Nat.lt_irrefl _ hlt'
    · rw [if_neg hc] at hscore
      exact absurd rfl hscore

/-- C3 witness: the general hostname only-if direction evaluated at the
concrete suffix `example.com` and hostname `a.example.com`. -/
theorem c3_hostname_boundary_witness :
    ∃ e, e ≠ [] ∧
      Match.labels "a.example.com".toList = e ++ Match.labels "example.com".toList :=
  c3_hostname_boundary.1 "example.com".toList "a.example.com".toList (by decide)

/-! Path boundary lemmas. -/

lemma path_star_len_ne (p : List Char) : p ++ ['/', '*'] ≠ starStr := by
  intro e
  have := congrArg List.length e
  simp [starStr] at this

lemma path_dstar_len_ne (p : List Char) : p ++ ['/', '*', '*'] ≠ starStr := by
  intro e
  have := congrArg List.length e
  simp [starStr] at this

lemma suffix_ss_of_star (p : List Char) :
    (['/', '*'] : List Char).isSuffixOf (p ++ ['/', '*']) = true :=
  isSuffixOf_append_self _ p

lemma not_suffix_dss_of_star (p : List Char) :
    (['/', '*', '*'] : List Char).isSuffixOf (p ++ ['/', '*']) = false := by
  show List.isPrefixOf ['*', '*', '/'] ((p ++ ['/', '*']).reverse) = false
  rw [List.reverse_append]
  show List.isPrefixOf ['*', '*', '/'] ('*' :: '/' :: p.reverse) = false
  have h1 : (('*' : Char) == '/') = false := by decide
  simp [List.isPrefixOf_cons₂, h1]

lemma suffix_dss_of_dstar (p : List Char) :
    (['/', '*', '*'] : List Char).isSuffixOf (p ++ ['/', '*', '*']) = true :=
  isSuffixOf_append_self _ p

lemma take_of_star (p : List Char) : (p ++ ['/', '*']).take ((p ++ ['/', '*']).length - 2) = p := by
  have hl : (p ++ ['/', '*']).length - 2 = p.length := by simp
  rw [hl, List.take_left]

lemma take_of_dstar (p : List Char) :
    (p ++ ['/', '*', '*']).take ((p ++ ['/', '*', '*']).length - 3) = p := by
  have hl : (p ++ ['/', '*', '*']).length - 3 = p.length := by simp
  rw [hl, List.take_left]

lemma slash_isPrefixOf_star (p : List Char) :
    (p ++ ['/']).isPrefixOf (p ++ ['/', '*']) = true := by
  have e : p ++ ['/', '*'] = (p ++ ['/']) ++ ['*'] := by simp
  rw [e]
  exact isPrefixOf_self_append _ _

lemma slash_isPrefixOf_dstar (p : List Char) :
    (p ++ ['/']).isPrefixOf (p ++ ['/', '*', '*']) = true := by
  have e : p ++ ['/', '*', '*'] = (p ++ ['/']) ++ ['*', '*'] := by simp
  rw [e]
  exact isPrefixOf_self_append _ _

/-- C4: a path mask `p/*` matches exactly the paths starting with `p/`
(including `p/` itself, excluding the bare `p`), and `p/**` matches exactly
those plus the bare `p`; in particular `/a/b/*` rejects `/a/b` while `/a/b/**`
accepts it, and both accept `/a/b/c`. -/
theorem c4_path_boundary :
    (∀ p v : List Char,
      (score (Match.fuzzyMatchPath (some (p ++ ['/', '*'])) (some v)) ≠ none ↔
        (p ++ ['/']).isPrefixOf v = true) ∧
      (score (Match.fuzzyMatchPath (some (p ++ ['/', '*', '*'])) (some v)) ≠ none ↔
        ((p ++ ['/']).isPrefixOf v = true ∨ v = p))) ∧
    score (Match.fuzzyMatchPath (some "/a/b/*".toList) (some "/a/b".toList)) = none ∧
    score (Match.fuzzyMatchPath (some "/a/b/**".toList) (some "/a/b".toList)) ≠ none ∧
    score (Match.fuzzyMatchPath (some "/a/b/*".toList) (some "/a/b/c".toList)) ≠ none ∧
    score (Match.fuzzyMatchPath (some "/a/b/**".toList) (some "/a/b/c".toList)) ≠ none := by
  refine ⟨?_, by decide, by decide, by decide, by decide⟩
  intro p v
  constructor
  · by_cases heq : (p ++ ['/', '*']) = v
    · have hpre : (p ++ ['/']).isPrefixOf v = true := heq ▸ slash_isPrefixOf_star p
      have e1 : Match.fuzzyMatchPath (some (p ++ ['/', '*'])) (some v) = Outcome.perfect := by
        show (if (p ++ ['/', '*']) = starStr then Outcome.wildcard
          else if (p ++ ['/', '*']) = v then Outcome.perfect
          else _) = _
        rw [if_neg (path_star_len_ne p), if_pos heq]
      rw [e1]
      simp [score, hpre]
    · have e1 : Match.fuzzyMatchPath (some (p ++ ['/', '*'])) (some v) =
          if (p ++ ['/']).isPrefixOf v then Outcome.wildcard else Outcome.noMatch := by
        show (if (p ++ ['/', '*']) = starStr then Outcome.wildcard
          else if (p ++ ['/', '*']) = v then Outcome.perfect
          else if (['/', '*', '*'] : List Char).isSuffixOf (p ++ ['/', '*']) then
            (if ((p ++ ['/', '*']).take ((p ++ ['/', '*']).length - 3) ++ ['/']).isPrefixOf v
                || v = (p ++ ['/', '*']).take ((p ++ ['/', '*']).length - 3)
             then Outcome.wildcard else Outcome.noMatch)
          else if (['/', '*'] : List Char).isSuffixOf (p ++ ['/', '*']) then
            (if ((p ++ ['/', '*']).take ((p ++ ['/', '*']).length - 2) ++ ['/']).isPrefixOf v
             then Outcome.wildcard else Outcome.noMatch)
          else Outcome.noMatch) = _
        rw [if_neg (path_star_len_ne p), if_neg heq]
        rw [show ((['/', '*', '*'] : List Char).isSuffixOf (p ++ ['/', '*'])) =
          false from not_suffix_dss_of_star p]
        rw [show ((['/', '*'] : List Char).isSuffixOf (p ++ ['/', '*'])) =
          true from suffix_ss_of_star p]
        rw [take_of_star p]
        simp
      rw [e1]
      by_cases hpre : (p ++ ['/']).isPrefixOf v = true
      · rw [if_pos hpre]
        simp [score, hpre]
      · rw [if_neg (by simpa using hpre)]
        simp [score, hpre]
  · by_cases heq : (p ++ ['/', '*', '*']) = v
    · have hpre : (p ++ ['/']).isPrefixOf v = true := heq ▸ slash_isPrefixOf_dstar p
      have e1 : Match.fuzzyMatchPath (some (p ++ ['/', '*', '*'])) (some v) = Outcome.perfect := by
        show (if (p ++ ['/', '*', '*']) = starStr then Outcome.wildcard
          else if (p ++ ['/', '*', '*']) = v then Outcome.perfect
          else _) = _
        rw [if_neg (path_dstar_len_ne p), if_pos heq]
      rw [e1]
      simp [score, hpre]
    · have e1 : Match.fuzzyMatchPath (some (p ++ ['/', '*', '*'])) (some v) =
          if (p ++ ['/']).isPrefixOf v || v == p then Outcome.wildcard else Outcome.noMatch := by
        show (if (p ++ ['/', '*', '*']) = starStr then Outcome.wildcard
          else if (p ++ ['/', '*', '*']) = v then Outcome.perfect
          else if (['/', '*', '*'] : List Char).isSuffixOf (p ++ ['/', '*', '*']) then
            (if ((p ++ ['/', '*', '*']).take ((p ++ ['/', '*', '*']).length - 3) ++ ['/']).isPrefixOf v
                || v = (p ++ ['/', '*', '*']).take ((p ++ ['/', '*', '*']).length - 3)
             then Outcome.wildcard else Outcome.noMatch)
          else _) = _
        rw [if_neg (path_dstar_len_ne p), if_neg heq]
        rw [show ((['/', '*', '*'] : List Char).isSuffixOf (p ++ ['/', '*', '*'])) =
          true from suffix_dss_of_dstar p]
        rw [take_of_dstar p]
        simp
      rw [e1]
      by_cases hpre : (p ++ ['/']).isPrefixOf v = true
      · rw [if_pos (by simp [hpre])]
        simp [score, hpre]
      · by_cases hvp : v = p
        · rw [if_pos (by simp [hvp])]
          simp [score, hvp]
        · rw [if_neg (by simp [hpre, hvp])]
          simp [score, hpre, hvp]

/-- C4 witness: the general path equivalence evaluated at the concrete prefix
`/a/b` and value `/a/b/c`. -/
theorem c4_path_boundary_witness :
    ("/a/b".toList ++ ['/']).isPrefixOf "/a/b/c".toList = true :=
  ((c4_path_boundary.1 "/a/b".toList "/a/b/c".toList).1).mp (by decide)

/-! Lemmas for the best-match selection claim. -/

lemma step_combine (i0 : Nat) (r : Option Nat) (acc rec : Option (Nat × Nat)) :
    Match.combine (i0 + 1) (Match.stepBest i0 r acc) rec = Match.combine i0 acc (Match.refStep r rec) := by
  rcases r with _ | s <;> rcases acc with _ | ⟨bi, bs⟩ <;> rcases rec with _ | ⟨j, t⟩ <;>
    simp only [Match.stepBest, Match.refStep, Match.combine,
      Option.map_none', Option.map_some']
  all_goals
    repeat'
      first
        | split_ifs
        | simp only [Match.stepBest, Match.refStep, Match.combine,
            Option.map_none', Option.map_some']
  all_goals try rfl
  all_goals try (exfalso; omega)
  all_goals simp only [Option.some.injEq, Prod.mk.injEq]
  all_goals exact ⟨by omega, trivial⟩

lemma bmiGo_eq (u : Fuzzyurl) :
    ∀ (l : List Fuzzyurl) (i0 : Nat) (acc : Option (Nat × Nat)),
      Match.bmiGo u l i0 acc = Match.combine i0 acc (Match.bmiRef u l) := by
  intro l
  induction l with
  | nil =>
    intro i0 acc
    rcases acc with _ | ⟨bi, bs⟩ <;> rfl
  | cons m rest ih =>
    intro i0 acc
    rw [show Match.bmiGo u (m :: rest) i0 acc =
      Match.bmiGo u rest (i0 + 1) (Match.stepBest i0 (Match.matchUrl m u) acc) from rfl]
    rw [ih, show Match.bmiRef u (m :: rest) =
      Match.refStep (Match.matchUrl m u) (Match.bmiRef u rest) from rfl]
    exact step_combine i0 (Match.matchUrl m u) acc (Match.bmiRef u rest)

lemma bestMatchIndex_eq_ref (masks : List Fuzzyurl) (u : Fuzzyurl) :
    Match.bestMatchIndex masks u = (Match.bmiRef u masks).map Prod.fst := by
  rw [Match.bestMatchIndex, bmiGo_eq]
  rcases h : Match.bmiRef u masks with _ | ⟨j, t⟩
  · rfl
  · show some (Prod.fst (0 + j, t)) = some (Prod.fst (j, t))
    rw [show (0 : Nat) + j = j from by omega]

lemma bmiRef_none_iff (u : Fuzzyurl) :
    ∀ l : List Fuzzyurl,
      Match.bmiRef u l = none ↔ ∀ i m, l.get? i = some m → Match.matchUrl m u = none := by
  intro l
  induction l with
  | nil => simp [Match.bmiRef]
  | cons m rest ih =>
    constructor
    · intro h i mm hget
      rcases hm : Match.matchUrl m u with _ | s
      · have hrest : Match.bmiRef u rest = none := by
          rw [Match.bmiRef, hm] at h
          rcases hr : Match.bmiRef u rest with _ | p
          · rfl
          · rw [hr] at h
            exact Option.noConfusion h
        rcases i with _ | i
        · rw [show mm = m from by injection hget with h9; exact h9.symm] ; exact hm
        · exact (ih.mp hrest) i mm hget
      · exfalso
        rw [Match.bmiRef, hm] at h
        rcases hr : Match.bmiRef u rest with _ | ⟨j, t⟩
        · rw [hr] at h
          exact Option.noConfusion h
        · rw [hr] at h
          simp only [Match.refStep] at h
          by_cases hts : t ≤ s
          · rw [if_pos hts] at h
            exact Option.noConfusion h
          · rw [if_neg hts] at h
            exact Option.noConfusion h
    · intro h
      have hm : Match.matchUrl m u = none := h 0 m rfl
      have hrest : Match.bmiRef u rest = none := ih.mpr (fun i mm hg => h (i + 1) mm hg)
      rw [Match.bmiRef, hm, hrest]
      rfl

lemma bmiRef_some (u : Fuzzyurl) :
    ∀ (l : List Fuzzyurl) (j s : Nat),
      Match.bmiRef u l = some (j, s) →
        (∃ m, l.get? j = some m ∧ Match.matchUrl m u = some s) ∧
        (∀ k mk sk, l.get? k = some mk → Match.matchUrl mk u = some sk → sk ≤ s) ∧
        (∀ k mk sk, k < j → l.get? k = some mk → Match.matchUrl mk u = some sk → sk < s) := by
  intro l
  induction l with
  | nil =>
    intro j s h
    exact Option.noConfusion h
  | cons m rest ih =>
    intro j s h
    rcases hm : Match.matchUrl m u with _ | s0
    · rw [Match.bmiRef, hm] at h
      rcases hr : Match.bmiRef u rest with _ | ⟨j', s'⟩
      · rw [hr] at h
        exact Option.noConfusion h
      · rw [hr] at h
        simp only [Match.refStep, Option.map_some'] at h
        have hj : j = j' + 1 := by injection h with h2; injection h2 with h3 h4; omega
        have hs : s = s' := by injection h with h2; injection h2 with h3 h4; omega
        subst hj; subst hs
        obtain ⟨⟨mm, hmm, hmm2⟩, hmax, hstrict⟩ := ih j' s hr
        refine ⟨⟨mm, hmm, hmm2⟩, ?_, ?_⟩
        · intro k mk sk hk hmk
          rcases k with _ | k
          · rw [show mk = m from by injection hk with h9; exact h9.symm] at hmk
            rw [hm] at hmk
            exact Option.noConfusion hmk
          · exact hmax k mk sk hk hmk
        · intro k mk sk hlt hk hmk
          rcases k with _ | k
          · rw [show mk = m from by injection hk with h9; exact h9.symm] at hmk
            rw [hm] at hmk
            exact Option.noConfusion hmk
          · exact hstrict k mk sk (by omega) hk hmk
    · rw [Match.bmiRef, hm] at h
      rcases hr : Match.bmiRef u rest with _ | ⟨j', t⟩
      · rw [hr] at h
        have hj : j = 0 := by injection h with h2; injection h2 with h3 h4; omega
        have hs : s = s0 := by injection h with h2; injection h2 with h3 h4; omega
        subst hj; subst hs
        have hrest := (bmiRef_none_iff u rest).mp hr
        refine ⟨⟨m, rfl, hm⟩, ?_, ?_⟩
        · intro k mk sk hk hmk
          rcases k with _ | k
          · rw [show mk = m from by injection hk with h9; exact h9.symm] at hmk
            rw [hm] at hmk
            injection hmk with h5
            omega
          · rw [hrest k mk hk] at hmk
            exact Option.noConfusion hmk
        · intro k mk sk hlt _ _
          exact absurd hlt (Nat.not_lt_zero k)
      · rw [hr] at h
        simp only [Match.refStep] at h
        by_cases hts : t ≤ s0
        · rw [if_pos hts] at h
          have hj : j = 0 := by injection h with h2; injection h2 with h3 h4; omega
          have hs : s = s0 := by injection h with h2; injection h2 with h3 h4; omega
          subst hj; subst hs
          obtain ⟨⟨mm, hmm, hmm2⟩, hmax, hstrict⟩ := ih j' t hr
          refine ⟨⟨m, rfl, hm⟩, ?_, ?_⟩
          · intro k mk sk hk hmk
            rcases k with _ | k
            · rw [show mk = m from by injection hk with h9; exact h9.symm] at hmk
              rw [hm] at hmk
              injection hmk with h5
              omega
            · have := hmax k mk sk hk hmk
              omega
          · intro k mk sk hlt _ _
            exact absurd hlt (Nat.not_lt_zero k)
        · rw [if_neg hts] at h
          have hj : j = j' + 1 := by injection h with h2; injection h2 with h3 h4; omega
          have hs : s = t := by injection h with h2; injection h2 with h3 h4; omega
          subst hj; subst hs
          obtain ⟨⟨mm, hmm, hmm2⟩, hmax, hstrict⟩ := ih j' s hr
          refine ⟨⟨mm, hmm, hmm2⟩, ?_, ?_⟩
          · intro k mk sk hk hmk
            rcases k with _ | k
            · rw [show mk = m from by injection hk with h9; exact h9.symm] at hmk
              rw [hm] at hmk
              injection hmk with h5
              omega
            · exact hmax k mk sk hk hmk
          · intro k mk sk hlt hk hmk
            rcases k with _ | k
            · rw [show mk = m from by injection hk with h9; exact h9.symm] at hmk
              rw [hm] at hmk
              injection hmk with h5
              omega
            · exact hstrict k mk sk (by omega) hk hmk

/-- C7: `bestMatchIndex` is null exactly when no mask matches, and when it
returns an index `i`, the mask at `i` matches with a score that no mask
exceeds and that every earlier mask scores strictly below — so among
equally-scored matching masks the lowest index wins. -/
theorem c7_bestMatchIndex_first_max (masks : List Fuzzyurl) (u : Fuzzyurl) :
    (Match.bestMatchIndex masks u = none ↔
      ∀ i m, masks.get? i = some m → Match.matchUrl m u = none) ∧
    (∀ i, Match.bestMatchIndex masks u = some i →
      ∃ m s, masks.get? i = some m ∧ Match.matchUrl m u = some s ∧
        (∀ k mk sk, masks.get? k = some mk → Match.matchUrl mk u = some sk → sk ≤ s) ∧
        (∀ k mk sk, k < i → masks.get? k = some mk → Match.matchUrl mk u = some sk → sk < s)) := by
  constructor
  · rw [bestMatchIndex_eq_ref]
    rcases h : Match.bmiRef u masks with _ | ⟨j, t⟩
    · simpa [h] using (bmiRef_none_iff u masks).mp h
    · constructor
      · intro hmap
        rw [Option.map_some'] at hmap
        exact Option.noConfusion hmap
      · intro hall
        exact absurd h (by rw [(bmiRef_none_iff u masks).mpr hall] at h ⊢; exact fun hh => Option.noConfusion hh)
  · intro i hi
    rw [bestMatchIndex_eq_ref] at hi
    rcases h : Match.bmiRef u masks with _ | ⟨j, t⟩
    · rw [h] at hi
      exact Option.noConfusion hi
    · rw [h, Option.map_some'] at hi
      have hji : j = i := by injection hi
      subst hji
      obtain ⟨⟨m, hm1, hm2⟩, hmax, hstrict⟩ := bmiRef_some u masks j t h
      exact ⟨m, t, hm1, hm2, hmax, hstrict⟩


/-- C7 witness: on the spec's tie-break example the winner is index 1, whose
score dominates all masks and strictly dominates every earlier one. -/
theorem c7_bestMatchIndex_first_max_witness :
    Match.bestMatchIndex c7Masks c7Url = some 1 ∧
      ∃ m s, c7Masks.get? 1 = some m ∧ Match.matchUrl m c7Url = some s ∧
        (∀ k mk sk, c7Masks.get? k = some mk → Match.matchUrl mk c7Url = some sk → sk ≤ s) ∧
        (∀ k mk sk, k < 1 → c7Masks.get? k = some mk → Match.matchUrl mk c7Url = some sk →
          sk < s) :=
  ⟨by decide, (c7_bestMatchIndex_first_max c7Masks c7Url).2 1 (by decide)⟩

/-! Round-trip lemmas: serializing a parsed record reproduces the input. -/

lemma splitSeq_recon (pat : List Char) :
    ∀ s a b : List Char, Strings.splitSeq pat s = some (a, b) → s = a ++ pat ++ b := by
  intro s
  induction s with
  | nil =>
    intro a b h
    rw [Strings.splitSeq] at h
    by_cases hp : pat.isEmpty
    · rw [if_pos hp] at h
      injection h with h2
      injection h2 with h3 h4
      subst h3; subst h4
      rw [List.isEmpty_iff.mp hp]
      rfl
    · rw [if_neg hp] at h
      exact Option.noConfusion h
  | cons c rest ih =>
    intro a b h
    rw [Strings.splitSeq] at h
    by_cases hp : pat.isPrefixOf (c :: rest) = true
    · rw [if_pos hp] at h
      injection h with h2
      injection h2 with h3 h4
      subst h3; subst h4
      obtain ⟨t, ht⟩ := isPrefixOf_ex pat (c :: rest) hp
      rw [ht, List.drop_left]
      rfl
    · rw [if_neg hp] at h
      rcases hres : Strings.splitSeq pat rest with _ | ⟨a', b'⟩
      · rw [hres] at h
        exact Option.noConfusion h
      · rw [hres] at h
        simp only [Option.map_some'] at h
        injection h with h2
        injection h2 with h3 h4
        subst h3; subst h4
        rw [ih a' b' hres]
        rfl

lemma stageProtocol_recon (s : List Char) :
    Strings.emitP (Strings.stageProtocol s).1 ++ (Strings.stageProtocol s).2 = s := by
  rw [Strings.stageProtocol]
  rcases h : Strings.splitSeq [':', '/', '/'] s with _ | ⟨a, b⟩
  · rfl
  · simp only [Strings.protAssemble, Strings.emitP]
    rw [splitSeq_recon [':', '/', '/'] s a b h]

lemma stageCred_recon (s : List Char) :
    Strings.emitU (Strings.stageCred s).1 (Strings.stageCred s).2.1 ++ (Strings.stageCred s).2.2 =
      s := by
  rw [Strings.stageCred]
  rcases h : Strings.splitSeq ['@'] s with _ | ⟨cred, rest⟩
  · rfl
  · have hs := splitSeq_recon ['@'] s cred rest h
    simp only [Strings.credAssemble]
    by_cases hc : cred.contains '/'
    · rw [if_pos hc]
      rfl
    · rw [if_neg hc]
      rcases h2 : Strings.splitSeq [':'] cred with _ | ⟨u, p⟩
      · simp only [Strings.credColon, Strings.emitU]
        rw [hs]
      · have hcred := splitSeq_recon [':'] cred u p h2
        simp only [Strings.credColon, Strings.emitU]
        rw [hs, hcred]
        simp

lemma stageHost_recon (s : List Char) :
    Strings.emitH (Strings.stageHost s).1 (Strings.stageHost s).2.1 ++ (Strings.stageHost s).2.2 =
      s := by
  rw [Strings.stageHost]
  have hsplit : s.takeWhile (fun c => !Strings.stopHost c) ++
      s.dropWhile (fun c => !Strings.stopHost c) = s := List.takeWhile_append_dropWhile _ _
  rcases h : Strings.splitSeq [':'] (s.takeWhile (fun c => !Strings.stopHost c)).reverse
    with _ | ⟨rp, rh⟩
  · simp only [Strings.hostAssemble]
    by_cases he : (s.takeWhile (fun c => !Strings.stopHost c)).isEmpty
    · rw [if_pos he]
      have hnil : s.takeWhile (fun c => !Strings.stopHost c) = [] := List.isEmpty_iff.mp he
      rw [hnil, List.nil_append] at hsplit
      simp only [Strings.emitH]
      rw [List.nil_append]
      exact hsplit
    · rw [if_neg he]
      simp only [Strings.emitH]
      exact hsplit
  · have hrev := splitSeq_recon [':'] _ rp rh h
    have htake : s.takeWhile (fun c => !Strings.stopHost c) = rh.reverse ++ ':' :: rp.reverse := by
      have h9 := congrArg List.reverse hrev
      simpa [List.reverse_append] using h9
    simp only [Strings.hostAssemble, Strings.emitH]
    calc (rh.reverse ++ ':' :: rp.reverse) ++ s.dropWhile (fun c => !Strings.stopHost c)
        = s.takeWhile (fun c => !Strings.stopHost c) ++
            s.dropWhile (fun c => !Strings.stopHost c) := by rw [htake]
      _ = s := hsplit

lemma stagePath_recon (s : List Char) :
    Strings.emitPlain (Strings.stagePath s).1 ++ (Strings.stagePath s).2 = s := by
  rw [Strings.stagePath]
  by_cases hh : s.head? = some '/'
  · rw [if_pos hh]
    simp only [Strings.emitPlain]
    exact List.takeWhile_append_dropWhile _ _
  · rw [if_neg hh]
    rfl

lemma stageQuery_recon (s : List Char) :
    Strings.emitS '?' (Strings.stageQuery s).1 ++ (Strings.stageQuery s).2 = s := by
  rw [Strings.stageQuery]
  by_cases hh : s.head? = some '?'
  · rw [if_pos hh]
    obtain ⟨ys, hys⟩ := List.head?_eq_some_iff.mp hh
    simp only [Strings.emitS]
    rw [hys]
    simp only [List.drop_one, List.tail_cons]
    rw [show ('?' :: (ys.takeWhile fun c => !(c == '#'))) ++ ys.dropWhile (fun c => !(c == '#')) =
      '?' :: ((ys.takeWhile fun c => !(c == '#')) ++ ys.dropWhile (fun c => !(c == '#'))) from rfl]
    rw [List.takeWhile_append_dropWhile]
  · rw [if_neg hh]
    rfl

lemma stageFrag_recon (s : List Char) :
    Strings.emitS '#' (Strings.stageFrag s).1 ++ (Strings.stageFrag s).2 = s := by
  rw [Strings.stageFrag]
  by_cases hh : s.head? = some '#'
  · rw [if_pos hh]
    obtain ⟨ys, hys⟩ := List.head?_eq_some_iff.mp hh
    simp only [Strings.emitS]
    rw [hys]
    simp
  · rw [if_neg hh]
    rfl

lemma dropWhile_head_not (p : Char → Bool) (l : List Char) :
    l.dropWhile p = [] ∨ ∃ c t, l.dropWhile p = c :: t ∧ p c = false := by
  induction l with
  | nil => exact Or.inl rfl
  | cons c rest ih =>
    rw [List.dropWhile_cons]
    by_cases hc : p c = true
    · rw [if_pos hc]
      exact ih
    · rw [if_neg hc]
      exact Or.inr ⟨c, rest, rfl, by simpa using hc⟩

lemma stageHost_rest (s : List Char) :
    (Strings.stageHost s).2.2 = [] ∨
      ∃ c t, (Strings.stageHost s).2.2 = c :: t ∧ Strings.stopHost c = true := by
  have h2 : (Strings.stageHost s).2.2 = s.dropWhile (fun c => !Strings.stopHost c) := by
    rw [Strings.stageHost]
    rcases h : Strings.splitSeq [':'] (s.takeWhile (fun c => !Strings.stopHost c)).reverse
      with _ | ⟨rp, rh⟩
    · rfl
    · rfl
  rw [h2]
  rcases dropWhile_head_not (fun c => !Strings.stopHost c) s with h | ⟨c, t, ht, hc⟩
  · exact Or.inl h
  · exact Or.inr ⟨c, t, ht, by simpa using hc⟩

lemma stagePath_rest (s : List Char)
    (h : s = [] ∨ ∃ c t, s = c :: t ∧ Strings.stopHost c = true) :
    (Strings.stagePath s).2 = [] ∨
      ∃ c t, (Strings.stagePath s).2 = c :: t ∧ Strings.stopPath c = true := by
  rw [Strings.stagePath]
  by_cases hh : s.head? = some '/'
  · rw [if_pos hh]
    rcases dropWhile_head_not (fun c => !Strings.stopPath c) s with h2 | ⟨c, t, ht, hc⟩
    · exact Or.inl h2
    · exact Or.inr ⟨c, t, ht, by simpa using hc⟩
  · rw [if_neg hh]
    rcases h with h | ⟨c, t, ht, hc⟩
    · exact Or.inl h
    · refine Or.inr ⟨c, t, ht, ?_⟩
      have hcs : c ≠ '/' := by
        intro he
        rw [ht, he] at hh
        exact hh rfl
      simp only [Strings.stopHost, Bool.or_eq_true, beq_iff_eq] at hc
      simp only [Strings.stopPath, Bool.or_eq_true, beq_iff_eq]
      rcases hc with (h3 | h3) | h3
      · exact absurd h3 hcs
      · exact Or.inl h3
      · exact Or.inr h3

lemma stageQuery_rest (s : List Char)
    (h : s = [] ∨ ∃ c t, s = c :: t ∧ Strings.stopPath c = true) :
    (Strings.stageQuery s).2 = [] ∨ ∃ t, (Strings.stageQuery s).2 = '#' :: t := by
  rw [Strings.stageQuery]
  by_cases hh : s.head? = some '?'
  · rw [if_pos hh]
    rcases dropWhile_head_not (fun c => !(c == '#')) (s.drop 1) with h2 | ⟨c, t, ht, hc⟩
    · exact Or.inl h2
    · refine Or.inr ⟨t, ?_⟩
      have hce : c = '#' := eq_of_beq (by simpa using hc)
      show (s.drop 1).dropWhile (fun c => !(c == '#')) = '#' :: t
      rw [ht, hce]
  · rw [if_neg hh]
    rcases h with h | ⟨c, t, ht, hc⟩
    · exact Or.inl h
    · have hcs : c ≠ '?' := by
        intro he
        rw [ht, he] at hh
        exact hh rfl
      simp only [Strings.stopPath, Bool.or_eq_true, beq_iff_eq] at hc
      rcases hc with h3 | h3
      · exact absurd h3 hcs
      · exact Or.inr ⟨t, by rw [ht, h3]⟩

lemma stageFrag_rest (s : List Char)
    (h : s = [] ∨ ∃ t, s = '#' :: t) : (Strings.stageFrag s).2 = [] := by
  rw [Strings.stageFrag]
  by_cases hh : s.head? = some '#'
  · rw [if_pos hh]
  · rw [if_neg hh]
    rcases h with h | ⟨t, ht⟩
    · exact h
    · exfalso
      rw [ht] at hh
      exact hh rfl

/-- Serializing the raw decomposition of any string reproduces the string. -/
theorem toString_parseRaw (s : List Char) :
    Strings.toString (Strings.parseRaw s) = s := by
  show Strings.emitP (Strings.stageProtocol s).1 ++
      Strings.emitU (Strings.stageCred (Strings.stageProtocol s).2).1
        (Strings.stageCred (Strings.stageProtocol s).2).2.1 ++
      Strings.emitH (Strings.stageHost (Strings.stageCred (Strings.stageProtocol s).2).2.2).1
        (Strings.stageHost (Strings.stageCred (Strings.stageProtocol s).2).2.2).2.1 ++
      Strings.emitPlain
        (Strings.stagePath
          (Strings.stageHost (Strings.stageCred (Strings.stageProtocol s).2).2.2).2.2).1 ++
      Strings.emitS '?'
        (Strings.stageQuery
          (Strings.stagePath
            (Strings.stageHost (Strings.stageCred (Strings.stageProtocol s).2).2.2).2.2).2).1 ++
      Strings.emitS '#'
        (Strings.stageFrag
          (Strings.stageQuery
            (Strings.stagePath
              (Strings.stageHost
                (Strings.stageCred (Strings.stageProtocol s).2).2.2).2.2).2).2).1 = s
  have h6 : (Strings.stageFrag
      (Strings.stageQuery
        (Strings.stagePath
          (Strings.stageHost (Strings.stageCred (Strings.stageProtocol s).2).2.2).2.2).2).2).2 =
      [] :=
    stageFrag_rest _ (stageQuery_rest _ (stagePath_rest _ (stageHost_rest _)))
  have e6 := stageFrag_recon
    (Strings.stageQuery
      (Strings.stagePath
        (Strings.stageHost (Strings.stageCred (Strings.stageProtocol s).2).2.2).2.2).2).2
  rw [h6, List.append_nil] at e6
  have e5 := stageQuery_recon
    (Strings.stagePath
      (Strings.stageHost (Strings.stageCred (Strings.stageProtocol s).2).2.2).2.2).2
  have e4 := stagePath_recon
    (Strings.stageHost (Strings.stageCred (Strings.stageProtocol s).2).2.2).2.2
  have e3 := stageHost_recon (Strings.stageCred (Strings.stageProtocol s).2).2.2
  have e2 := stageCred_recon (Strings.stageProtocol s).2
  have e1 := stageProtocol_recon s
  rw [List.append_assoc, List.append_assoc, List.append_assoc, List.append_assoc]
  rw [e6, e5, e4, e3, e2, e1]

lemma setD_none (o : Option (List Char)) : Strings.setD none o = o := by
  cases o <;> rfl

lemma withDefault_none (f : Fuzzyurl) : Strings.withDefault none f = f := by
  obtain ⟨p, u, pw, h, t, pa, q, fr⟩ := f
  simp [Strings.withDefault, setD_none]


/-- C8: re-parsing the serialization of a parsed record (no default
configured) reproduces the record, for every input string; and on every
string of the supported grammar with all eight delimiters present, 
serialization of the parse reproduces the string itself. -/
theorem c8_roundtrip (s : List Char) :
    Strings.fromString (Strings.toString (Strings.fromString s none)) none =
      Strings.fromString s none ∧
    (allEightForm s → Strings.toString (Strings.fromString s none) = s) := by
  have hid : ∀ x : List Char, Strings.fromString x none = Strings.parseRaw x := by
    intro x
    rw [Strings.fromString, withDefault_none]
  constructor
  · simp only [hid]
    rw [toString_parseRaw]
  · intro _
    simp only [hid]
    exact toString_parseRaw s

/-- C8 witness: the concrete all-delimiter string `http://u:p@h:80/a?q#f` is in
the supported grammar and serializes back to itself after parsing. -/
theorem c8_roundtrip_witness :
    allEightForm "http://u:p@h:80/a?q#f".toList ∧
      Strings.toString (Strings.fromString "http://u:p@h:80/a?q#f".toList none) =
        "http://u:p@h:80/a?q#f".toList := by
  have hform : allEightForm "http://u:p@h:80/a?q#f".toList :=
    ⟨"http".toList, "u".toList, "p".toList, "h".toList, "80".toList,
     "a".toList, "q".toList, "f".toList,
     by decide, by decide, by decide, by decide, by decide, by decide, by decide, by decide⟩
  exact ⟨hform, (c8_roundtrip "http://u:p@h:80/a?q#f".toList).2 hform⟩
